import Mathlib

/-!
# Verification of the Pyro elections tutorial notebook

A shallow embedding, in Lean 4, of the computations performed by
`tutorial/source/elections.ipynb` (Bayesian optimal experimental design for
a US presidential election polling strategy), together with theorems that
settle the specification claims about it.

Conventions used throughout:

* The notebook loads its datasets (electoral-college votes, 1976-2012 state
  results, 2016 test results) from external pickles, so all definitions are
  parameterised over this data.
* The 51 states appear in the data frames in the notebook's fixed order
  (AL, AK, AZ, AR, CA, CO, CT, DE, DC, FL, ...); in particular DC has
  index 8 and Florida index 9, matching `poll_in_dc` and `poll_in_florida`.
* Tensor floating-point values are idealised as rationals (for purely
  order/arithmetic computations) or as reals (where `log`/`exp`/`sigmoid`
  appear).
* Pyro's stochastic `model` is embedded by explicit trace passing: the
  value drawn at each `pyro.sample` site is an input, and the model
  additionally records, for every site, the distribution that the value is
  drawn from (as a `PyroDist` descriptor).
-/

namespace Elections

/-- Historical state-by-state vote data, as loaded by the notebook from
`us_presidential_election_data_historical.pickle`: for each of the ten
presidential elections 1976-2012 (year index `9` is 2012) and each of the
51 states (50 states plus DC), the Democrat and the Republican vote count.
Votes for other parties are ignored in the dataset. -/
structure VoteData where
  dem : Fin 10 → Fin 51 → ℝ
  rep : Fin 10 → Fin 51 → ℝ

/-- The per-state, per-year logit data
`logits = torch.log(as_tensor[..., idx] / as_tensor[..., idx + 1]).transpose(0, 1)`:
entry `(y, i)` is `log(dem votes / rep votes)` for election year `y` in state `i`. -/
noncomputable def logits (d : VoteData) (y : Fin 10) (i : Fin 51) : ℝ :=
  Real.log (d.dem y i / d.rep y i)

/-- Code `prior_mean = torch.log(results_2012[..., 0] / results_2012[..., 1])`:
the prior mean for `alpha` is the logit of the 2012 (year index 9) results
alone. -/
noncomputable def prior_mean (d : VoteData) (i : Fin 51) : ℝ :=
  Real.log (d.dem 9 i / d.rep 9 i)

/-- Code `mean = logits.mean(0)`: the per-state mean of the logits over the ten
elections 1976-2012. -/
noncomputable def meanLogits (d : VoteData) (i : Fin 51) : ℝ :=
  (∑ y, logits d y i) / 10

/-- Code `sample_covariance = (1/(logits.shape[0] - 1)) * ((logits.unsqueeze(-1) - mean)
* (logits.unsqueeze(-2) - mean)).sum(0)`, transcribed with torch broadcasting
semantics.  `logits.unsqueeze(-1)` has shape `(10, 51, 1)` and `mean` shape
`(51,)`, so `(logits.unsqueeze(-1) - mean)[y, i, j] = logits[y, i] - mean[j]`
(note: `mean[j]`, not `mean[i]`); `(logits.unsqueeze(-2) - mean)[y, 0, j]
= logits[y, j] - mean[j]`.  The broadcast product summed over `y` gives entry
`(i, j)` below. -/
noncomputable def sample_covariance (d : VoteData) (i j : Fin 51) : ℝ :=
  (1 / (10 - 1)) *
    ∑ y, (logits d y i - meanLogits d j) * (logits d y j - meanLogits d j)

/-- Code `prior_covariance = sample_covariance + 0.01 * torch.eye(51)`. -/
noncomputable def prior_covariance (d : VoteData) (i j : Fin 51) : ℝ :=
  sample_covariance d i j + 0.01 * (if i = j then 1 else 0)

/-- The textbook unbiased empirical covariance of the ten logit vectors,
written exactly as the specification describes it: entry `(i, j)` is the sum
over the ten elections of `(x_yi - mean_i) * (x_yj - mean_j)`, divided by
`n - 1 = 9`.  (Spec-side definition, to be compared with the code-side
`sample_covariance`.) -/
noncomputable def unbiasedCovariance (d : VoteData) (i j : Fin 51) : ℝ :=
  (∑ y, (logits d y i - meanLogits d i) * (logits d y j - meanLogits d j)) /
    (10 - 1)

/-- Code `dem_win_state = (alpha > 0.).float()`: indicator that state `i` goes
Democrat, i.e. that its latent propensity is strictly positive. -/
def dem_win_state {K : Type*} [LinearOrderedField K]
    (alpha : Fin 51 → K) (i : Fin 51) : K :=
  if 0 < alpha i then 1 else 0

/-- Function `election_winner`: the Democrats win (output `1.0`) exactly when their
electoral-college vote share `dem_votes.sum() / ec_votes.sum()` is strictly
greater than `0.5`; otherwise the output is `0.0`.  `ec` is the
electoral-college vote count per state (`ec_votes_tensor` in the notebook,
loaded from `electoral_college_votes.pickle`). -/
def election_winner {K : Type*} [LinearOrderedField K]
    (ec : Fin 51 → K) (alpha : Fin 51 → K) : K :=
  if (1 : K) / 2 < (∑ i, ec i * dem_win_state alpha i) / (∑ i, ec i) then 1
  else 0

/-- The four fixed candidate polling strategies, in the order in which the
notebook's `OrderedDict` holds them. -/
inductive Strategy where
  | florida
  | dc
  | uniform
  | swing
deriving DecidableEq, Fintype

/-- Iteration order of `poll_strategies.items()`:
Florida, DC, Uniform, Swing. -/
def strategyOrder : List Strategy :=
  [Strategy.florida, Strategy.dc, Strategy.uniform, Strategy.swing]

/-- Position of a strategy in the ordered dictionary. -/
def strategyIdx : Strategy → Nat
  | Strategy.florida => 0
  | Strategy.dc => 1
  | Strategy.uniform => 2
  | Strategy.swing => 3

/-- Allocation `poll_in_florida`: 1000 people polled in Florida (index 9), none
elsewhere. -/
def poll_in_florida : Fin 51 → ℚ := fun i => if i = 9 then 1000 else 0

/-- Allocation `poll_in_dc`: 1000 people polled in DC (index 8), none elsewhere. -/
def poll_in_dc : Fin 51 → ℚ := fun i => if i = 8 then 1000 else 0

/-- Code `uniform_poll = (1000 // 51) * torch.ones(51)`: Python integer floor
division, so every state gets `1000 / 51 = 19` (in `ℕ`) people. -/
def uniform_poll : Fin 51 → ℚ := fun _ => ((1000 / 51 : ℕ) : ℚ)

/-- The ordered dictionary `poll_strategies`.  The swing allocation is
computed in the notebook from Monte-Carlo estimates of the per-state win
probabilities, so it is taken here as a parameter. -/
def poll_strategies (swingPoll : Fin 51 → ℚ) : Strategy → (Fin 51 → ℚ)
  | Strategy.florida => poll_in_florida
  | Strategy.dc => poll_in_dc
  | Strategy.uniform => uniform_poll
  | Strategy.swing => swingPoll

/-- The dictionary access `poll_strategies[best_strategy]` where
`best_strategy` may still be `None`: looking up `None` is a `KeyError`,
embedded as a `none` result. -/
def pollLookup (swingPoll : Fin 51 → ℚ) : Option Strategy → Option (Fin 51 → ℚ)
  | none => none
  | some s => some (poll_strategies swingPoll s)

/-- One iteration of the notebook's strategy-evaluation loop, acting on the
accumulator `(eigs, best_strategy, best_eig)`.  For strategy `s` it records
`eigs[s] = priorH - ape s` (the precomputed prior entropy minus the average
posterior entropy returned by `posterior_eig(..., eig=False)`), then updates
the incumbent via the strict comparison `if eigs[strategy] > best_eig`. -/
def loopStep {K : Type*} [LinearOrderedField K] (priorH : K)
    (ape : Strategy → K) (acc : List (Strategy × K) × Option Strategy × K)
    (s : Strategy) : List (Strategy × K) × Option Strategy × K :=
  (acc.1 ++ [(s, priorH - ape s)],
    if acc.2.2 < priorH - ape s then (some s, priorH - ape s) else acc.2)

/-- The whole loop `for strategy, allocation in poll_strategies.items(): ...`
starting from `eigs = {}` and `best_strategy, best_eig = None, 0`. -/
def evalLoop {K : Type*} [LinearOrderedField K] (priorH : K)
    (ape : Strategy → K) : List (Strategy × K) × Option Strategy × K :=
  strategyOrder.foldl (loopStep priorH ape) ([], none, 0)

/-- The recorded dictionary of EIG scores after the loop. -/
def eigsOf {K : Type*} [LinearOrderedField K] (priorH : K)
    (ape : Strategy → K) : List (Strategy × K) :=
  (evalLoop priorH ape).1

/-- The selected strategy after the loop (possibly still `None`). -/
def best_strategy {K : Type*} [LinearOrderedField K] (priorH : K)
    (ape : Strategy → K) : Option Strategy :=
  (evalLoop priorH ape).2.1

section LoopLemmas

variable {K : Type*} [LinearOrderedField K] (priorH : K) (ape : Strategy → K)

/-- The recorded-scores component of the loop: the fold just appends, for
each strategy in iteration order, the pair `(s, priorH - ape s)`. -/
theorem foldl_fst (l : List Strategy)
    (acc : List (Strategy × K) × Option Strategy × K) :
    (l.foldl (loopStep priorH ape) acc).1 =
      acc.1 ++ l.map fun s => (s, priorH - ape s) := by
  induction l generalizing acc with
  | nil => simp
  | cons a l ih =>
      rw [List.foldl_cons, ih]
      simp [loopStep]

/-- The incumbent best score never decreases along the loop. -/
theorem foldl_bestEig_mono (l : List Strategy)
    (acc : List (Strategy × K) × Option Strategy × K) :
    acc.2.2 ≤ (l.foldl (loopStep priorH ape) acc).2.2 := by
  induction l generalizing acc with
  | nil => simp
  | cons a l ih =>
      rw [List.foldl_cons]
      refine le_trans ?_ (ih (loopStep priorH ape acc a))
      by_cases h : acc.2.2 < priorH - ape a
      · simpa [loopStep, h] using le_of_lt h
      · simp [loopStep, h]

/-- Every score seen along the loop is at most the final best score. -/
theorem foldl_bestEig_ge (l : List Strategy)
    (acc : List (Strategy × K) × Option Strategy × K) (s : Strategy)
    (hs : s ∈ l) :
    priorH - ape s ≤ (l.foldl (loopStep priorH ape) acc).2.2 := by
  induction l generalizing acc with
  | nil => cases hs
  | cons a l ih =>
      rw [List.foldl_cons]
      rcases List.mem_cons.mp hs with h | h
      · subst h
        refine le_trans ?_ (foldl_bestEig_mono priorH ape l _)
        by_cases h : acc.2.2 < priorH - ape s
        · simp [loopStep, h]
        · simpa [loopStep, h] using le_of_not_lt h
      · exact ih _ h

/-- If the loop ends with `best_strategy = some s` then either `s` was
selected during the loop with the final best score equal to its own score,
or the incumbent was never displaced. -/
theorem foldl_best_eq (l : List Strategy)
    (acc : List (Strategy × K) × Option Strategy × K) (s : Strategy)
    (h : (l.foldl (loopStep priorH ape) acc).2.1 = some s) :
    (s ∈ l ∧ (l.foldl (loopStep priorH ape) acc).2.2 = priorH - ape s) ∨
      (acc.2.1 = some s ∧
        (l.foldl (loopStep priorH ape) acc).2.2 = acc.2.2) := by
  induction l generalizing acc with
  | nil => exact Or.inr ⟨h, rfl⟩
  | cons a l ih =>
      rw [List.foldl_cons] at h ⊢
      by_cases hlt : acc.2.2 < priorH - ape a
      · have hstep : loopStep priorH ape acc a =
            (acc.1 ++ [(a, priorH - ape a)], some a, priorH - ape a) := by
          simp [loopStep, hlt]
        rw [hstep] at h ⊢
        rcases ih _ h with ⟨hmem, heig⟩ | ⟨hacc, heig⟩
        · exact Or.inl ⟨List.mem_cons_of_mem _ hmem, heig⟩
        · have ha : a = s := by simpa using hacc
          subst ha
          exact Or.inl ⟨List.mem_cons_self _ _, by simpa using heig⟩
      · have hstep : loopStep priorH ape acc a =
            (acc.1 ++ [(a, priorH - ape a)], acc.2) := by
          simp [loopStep, hlt]
        rw [hstep] at h ⊢
        rcases ih _ h with ⟨hmem, heig⟩ | ⟨hacc, heig⟩
        · exact Or.inl ⟨List.mem_cons_of_mem _ hmem, heig⟩
        · exact Or.inr ⟨by simpa using hacc, by simpa using heig⟩

/-- If every score is at most the incumbent best score and no strategy has
been selected yet, the loop changes nothing but the recorded dictionary. -/
theorem foldl_none (l : List Strategy) (lst : List (Strategy × K)) (c : K)
    (hle : ∀ s ∈ l, priorH - ape s ≤ c) :
    (l.foldl (loopStep priorH ape) (lst, none, c)).2 = (none, c) := by
  induction l generalizing lst with
  | nil => rfl
  | cons a l ih =>
      rw [List.foldl_cons]
      have ha : ¬ c < priorH - ape a :=
        not_lt_of_le (hle a (List.mem_cons_self _ _))
      have : loopStep priorH ape (lst, none, c) a =
          (lst ++ [(a, priorH - ape a)], none, c) := by
        simp [loopStep, ha]
      rw [this]
      exact ih _ fun s hs => hle s (List.mem_cons_of_mem _ hs)

/-- Every strategy occurs in the iteration order. -/
theorem mem_strategyOrder (s : Strategy) : s ∈ strategyOrder := by
  cases s <;> simp [strategyOrder]

end LoopLemmas

/-- Descriptors for the distributions appearing at the `pyro.sample` sites of
the notebook.  `binomialLogits n l` is `dist.Binomial(n, logits=l).to_event(1)`:
a vector of 51 independent binomials whose success probabilities are given in
logit parameterisation; `binomialProbs` is the same family in direct
probability parameterisation; `bernoulliLogits` is `dist.Bernoulli(logits=x)`. -/
inductive PyroDist where
  | mvn (mean : Fin 51 → ℝ) (cov : Fin 51 → Fin 51 → ℝ)
  | binomialLogits (n : Fin 51 → ℝ) (l : Fin 51 → ℝ)
  | binomialProbs (n : Fin 51 → ℝ) (p : Fin 51 → ℝ)
  | delta (v : ℝ)
  | bernoulliLogits (l : ℝ)

/-- Function `sigmoid(x) = 1 / (1 + exp(-x))`: torch's conversion from logits to
probabilities. -/
noncomputable def sigmoid (x : ℝ) : ℝ := 1 / (1 + Real.exp (-x))

/-- Resolving the logit parameterisation: torch's
`Binomial(total_count, logits=l)` has success probabilities `sigmoid(l)`. -/
noncomputable def PyroDist.toProbs : PyroDist → PyroDist
  | PyroDist.binomialLogits n l => PyroDist.binomialProbs n fun i => sigmoid (l i)
  | d => d

/-- The generative `model(polling_allocation)` of the notebook, embedded by
explicit trace passing: `alphaDraw` is the value drawn at the `"alpha"` site
and `yDraw` the value drawn at the `"y"` site (the `"w"` site is a `Delta`,
so its drawn value is determined).  The result is the list of sample sites
with the distribution each value is drawn from, together with the returned
triple `(poll_results, dem_win, alpha)`. -/
noncomputable def model (d : VoteData) (ec : Fin 51 → ℝ)
    (polling_allocation : Fin 51 → ℝ) (alphaDraw yDraw : Fin 51 → ℝ) :
    List (String × PyroDist) × ((Fin 51 → ℝ) × ℝ × (Fin 51 → ℝ)) :=
  let alpha := alphaDraw
  let poll_results := yDraw
  let dem_win := election_winner ec alpha
  ([("alpha", PyroDist.mvn (prior_mean d) (prior_covariance d)),
    ("y", PyroDist.binomialLogits polling_allocation alpha),
    ("w", PyroDist.delta dem_win)],
   (poll_results, dem_win, alpha))

/-- The 2016 test data loaded from `us_presidential_election_data_test.pickle`:
per state, the Democrat and Republican vote counts of the 2016 election. -/
def TestData : Type := Fin 51 → ℝ × ℝ

/-- Code `true_alpha = torch.log(results_2016[..., 0] / results_2016[..., 1])`. -/
noncomputable def true_alpha (test : TestData) (i : Fin 51) : ℝ :=
  Real.log ((test i).1 / (test i).2)

/-- Conditioning: `pyro.condition` applied to `model` with the alpha entry
fixed, so the draw at the alpha site is replaced by `true_alpha`. -/
noncomputable def conditioned_model (d : VoteData) (ec : Fin 51 → ℝ)
    (test : TestData) (alloc : Fin 51 → ℝ) (yDraw : Fin 51 → ℝ) :
    List (String × PyroDist) × ((Fin 51 → ℝ) × ℝ × (Fin 51 → ℝ)) :=
  model d ec alloc (true_alpha test) yDraw

/-- The weights of the `OutcomePredictor` network: `h1 = nn.Linear(51, 64)`,
`h2 = nn.Linear(64, 64)`, `h3 = nn.Linear(64, 1)` (the single output row of
`h3` is stored directly as a vector `w3` and scalar bias `b3`, matching the
`.squeeze()` applied to its output). -/
structure OutcomePredictor where
  w1 : Fin 64 → Fin 51 → ℝ
  b1 : Fin 64 → ℝ
  w2 : Fin 64 → Fin 64 → ℝ
  b2 : Fin 64 → ℝ
  w3 : Fin 64 → ℝ
  b3 : ℝ

/-- Function `nn.functional.relu`. -/
noncomputable def relu (x : ℝ) : ℝ := max x 0

/-- Method `compute_dem_probability(y)`: `z = relu(h1(y)); z = relu(h2(z));
return h3(z)` — the scalar output logit of the classifier. -/
noncomputable def compute_dem_probability (g : OutcomePredictor)
    (y : Fin 51 → ℝ) : ℝ :=
  let z1 := fun j => relu ((∑ k, g.w1 j k * y k) + g.b1 j)
  let z2 := fun j => relu ((∑ k, g.w2 j k * z1 k) + g.b2 j)
  (∑ k, g.w3 k * z2 k) + g.b3

/-- Code `q_w = torch.sigmoid(guide.compute_dem_probability(y).squeeze().detach())`:
the reported posterior probability of a Democrat win. -/
noncomputable def q_w (g : OutcomePredictor) (y : Fin 51 → ℝ) : ℝ :=
  sigmoid (compute_dem_probability g y)

/-- Entropy `dist.Bernoulli(p).entropy() = -(p log p + (1-p) log(1-p))`, used for
`prior_entropy = dist.Bernoulli(prior_w_prob).entropy()`. -/
noncomputable def bernoulliEntropy (p : ℝ) : ℝ :=
  -(p * Real.log p + (1 - p) * Real.log (1 - p))

/-- A concrete instance of the historical data: every vote count is `1`
except that in 1976 (year 0) the first state records `2` Democrat votes.
Used to separate the code's prior from the claimed one. -/
noncomputable def exData : VoteData where
  dem := fun y i => if y = 0 ∧ i = 0 then 2 else 1
  rep := fun _ _ => 1

/-- The deviations of the logits from their per-state mean sum to zero over
the ten elections. -/
theorem sum_dev_eq_zero (d : VoteData) (j : Fin 51) :
    ∑ y, (logits d y j - meanLogits d j) = 0 := by
  have h : ∑ _y : Fin 10, meanLogits d j = 10 * meanLogits d j := by
    rw [Finset.sum_const, Finset.card_univ]
    simp [nsmul_eq_mul]
  rw [Finset.sum_sub_distrib, h, meanLogits]
  ring

/-- Despite the asymmetric broadcasting (the first factor subtracts
`mean j`, not `mean i`), the code's `sample_covariance` coincides with the
textbook unbiased empirical covariance, because the deviations in the second
factor sum to zero. -/
theorem sample_covariance_eq_unbiased (d : VoteData) (i j : Fin 51) :
    sample_covariance d i j = unbiasedCovariance d i j := by
  unfold sample_covariance unbiasedCovariance
  have key : ∑ y, (logits d y i - meanLogits d j) * (logits d y j - meanLogits d j)
      = (∑ y, (logits d y i - meanLogits d i) * (logits d y j - meanLogits d j))
        + (meanLogits d i - meanLogits d j) *
            ∑ y, (logits d y j - meanLogits d j) := by
    rw [Finset.mul_sum, ← Finset.sum_add_distrib]
    exact Finset.sum_congr rfl fun y _ => by ring
  rw [key, sum_dev_eq_zero]
  ring

/-- In `exData`, the 2012 values are all `1`, so the code's prior mean
vanishes at state 0. -/
theorem exData_prior_mean : prior_mean exData 0 = 0 := by
  have h9 : ((9 : Fin 10) = 0 ∧ (0 : Fin 51) = 0) = False := by simp
  simp [prior_mean, exData, h9]

/-- In `exData`, the mean over the ten elections of the logits at state 0 is
`log 2 / 10`. -/
theorem exData_meanLogits : meanLogits exData 0 = Real.log 2 / 10 := by
  have hl : ∀ y : Fin 10, logits exData y 0 =
      if y = 0 then Real.log 2 else 0 := by
    intro y
    by_cases h : y = 0 <;> simp [logits, exData, h]
  unfold meanLogits
  rw [Finset.sum_congr rfl fun y _ => hl y]
  simp

/-- C1 counterexample: on the concrete dataset `exData`, the code's
`prior_mean` differs from the mean over the ten elections of the per-state
logits, and the code's `prior_covariance` differs from the unbiased empirical
covariance (its diagonal is jittered by `0.01`), so the claim as stated is
false on this input. -/
theorem prior_claim_counterexample :
    prior_mean exData 0 ≠ meanLogits exData 0 ∧
    prior_covariance exData 0 0 ≠ unbiasedCovariance exData 0 0 := by
  constructor
  · rw [exData_prior_mean, exData_meanLogits]
    intro h
    have hlog : 0 < Real.log 2 := Real.log_pos (by norm_num)
    have : Real.log 2 = 0 := by linarith [h]
    linarith
  · unfold prior_covariance
    rw [sample_covariance_eq_unbiased]
    intro h
    have : (0.01 : ℝ) * (if (0 : Fin 51) = 0 then 1 else 0) = 0 := by linarith
    simp at this
    norm_num at this

/-- C1 (amended): `prior_mean` is the per-state logit
`log(dem votes / rep votes)` of the 2012 election alone, and
`prior_covariance` is the unbiased empirical covariance of the ten
historical logit vectors with `0.01` added to each diagonal entry. -/
theorem prior_mean_2012_and_covariance_jittered (d : VoteData) :
    (∀ i, prior_mean d i = logits d 9 i) ∧
    (∀ i j, prior_covariance d i j =
      unbiasedCovariance d i j + 0.01 * (if i = j then 1 else 0)) :=
  ⟨fun _ => rfl, fun i j => by
    rw [prior_covariance, sample_covariance_eq_unbiased]⟩

/-- C3: for every polling allocation (and every value assignment of the
stochastic trace), the generative model draws `alpha` from the multivariate
normal with mean `prior_mean` and covariance `prior_covariance`, draws the
poll outcome from the vector of independent binomials
`Binomial(n_i, sigmoid(alpha_i))` (the logit parameterisation of the code
resolves to success probability `sigmoid(alpha_i)` per state), takes the
winner deterministically as `election_winner(alpha)`, and returns the triple
`(poll_results, dem_win, alpha)`. -/
theorem model_samples_and_returns (d : VoteData) (ec : Fin 51 → ℝ)
    (alloc aD yD : Fin 51 → ℝ) :
    (model d ec alloc aD yD).1 =
      [("alpha", PyroDist.mvn (prior_mean d) (prior_covariance d)),
       ("y", PyroDist.binomialLogits alloc aD),
       ("w", PyroDist.delta (election_winner ec aD))] ∧
    (PyroDist.binomialLogits alloc aD).toProbs =
      PyroDist.binomialProbs alloc (fun i => sigmoid (aD i)) ∧
    (model d ec alloc aD yD).2 = (yD, election_winner ec aD, aD) :=
  ⟨rfl, rfl, rfl⟩

/-- C5: the reported posterior probability of a Democrat win is exactly the
sigmoid of the scalar logit produced by the 51-input feed-forward network
with two 64-unit ReLU hidden layers and one linear output, applied to the
poll outcome `y`; the embedding of `q_w` takes no other input, so no further
inference over `alpha` enters this number. -/
theorem q_w_is_sigmoid_of_classifier (g : OutcomePredictor) (y : Fin 51 → ℝ) :
    q_w g y = sigmoid ((∑ k, g.w3 k *
      relu ((∑ j, g.w2 k j * relu ((∑ i, g.w1 j i * y i) + g.b1 j)) + g.b2 k))
      + g.b3) := rfl

/-- C7: `election_winner` is deterministic (equal inputs give equal outputs),
and inside the model the site `"w"` carries a `Delta` distribution at
`election_winner(alpha)`, so the winner is fully determined by `alpha`. -/
theorem election_winner_deterministic (d : VoteData)
    (ec alloc a b yD : Fin 51 → ℝ) (hab : a = b) :
    election_winner ec a = election_winner ec b ∧
    List.lookup "w" (model d ec alloc a yD).1 =
      some (PyroDist.delta (election_winner ec a)) ∧
    (model d ec alloc a yD).2.2.1 = election_winner ec a := by
  refine ⟨by rw [hab], ?_, rfl⟩
  rfl

/-- C6: the simulated poll data comes from the generative model with the
`"alpha"` draw replaced by `true_alpha`, the per-state log vote ratio of the
2016 results; for positive vote counts this is the logit of the two-party
Democrat vote share `dem / (dem + rep)`. -/
theorem conditioned_model_uses_2016_alpha (d : VoteData) (ec : Fin 51 → ℝ)
    (test : TestData) (alloc yD : Fin 51 → ℝ) :
    (conditioned_model d ec test alloc yD).2.2.2 = true_alpha test ∧
    List.lookup "y" (conditioned_model d ec test alloc yD).1 =
      some (PyroDist.binomialLogits alloc (true_alpha test)) ∧
    (conditioned_model d ec test alloc yD).2.1 = yD ∧
    (∀ i, 0 < (test i).1 → 0 < (test i).2 →
      true_alpha test i =
        Real.log (((test i).1 / ((test i).1 + (test i).2)) /
          (1 - (test i).1 / ((test i).1 + (test i).2)))) := by
  refine ⟨rfl, rfl, rfl, fun i h1 h2 => ?_⟩
  have hsum : (test i).1 + (test i).2 ≠ 0 := by positivity
  have harg : ((test i).1 / ((test i).1 + (test i).2)) /
      (1 - (test i).1 / ((test i).1 + (test i).2)) = (test i).1 / (test i).2 := by
    rw [one_sub_div hsum]
    have ht : (test i).1 + (test i).2 - (test i).1 = (test i).2 := by ring
    rw [ht, div_div_eq_mul_div, div_mul_cancel₀ _ hsum]
  rw [true_alpha, harg]

/-- C8: both comparisons inside `election_winner` are strict: a state whose
latent propensity is exactly `0` contributes no electoral-college votes to
the Democrats, a Democrat electoral-college total of exactly half the
overall total yields a Republican win (output `0`), and the output is always
exactly `0` or `1`. -/
theorem election_winner_strict_boundaries (ec alpha : Fin 51 → ℚ) :
    (∀ i, alpha i = 0 → ec i * dem_win_state alpha i = 0) ∧
    ((∑ i, ec i * dem_win_state alpha i) = (∑ i, ec i) / 2 →
      election_winner ec alpha = 0) ∧
    (election_winner ec alpha = 0 ∨ election_winner ec alpha = 1) := by
  refine ⟨fun i hi => by simp [dem_win_state, hi], fun hhalf => ?_, ?_⟩
  · unfold election_winner
    rw [hhalf]
    rcases eq_or_ne (∑ i, ec i) 0 with h0 | h0
    · rw [h0]
      norm_num
    · have hq : (∑ i, ec i) / 2 / (∑ i, ec i) = 1 / 2 := by
        field_simp
        ring
      rw [hq, if_neg (lt_irrefl _)]
  · unfold election_winner
    split_ifs
    · exact Or.inr rfl
    · exact Or.inl rfl

/-- C10: the uniform strategy polls exactly `1000 // 51 = 19` people in every
one of the 51 states, for a total of `969` people, not `1000`. -/
theorem uniform_poll_19_each_total_969 :
    (∀ i, uniform_poll i = 19) ∧ ((1000 : ℕ) / 51 = 19) ∧
    (∑ i, uniform_poll i) = 969 ∧ (969 : ℚ) ≠ 1000 := by
  refine ⟨fun i => by norm_num [uniform_poll], by norm_num, ?_, by norm_num⟩
  have hc : ∀ i : Fin 51, uniform_poll i = ((1000 / 51 : ℕ) : ℚ) := fun _ => rfl
  rw [Finset.sum_congr rfl fun i _ => hc i, Finset.sum_const, Finset.card_univ]
  norm_num

/-- The dictionary of recorded scores maps each strategy to
`priorH - ape s`. -/
theorem lookup_eigsOf {K : Type*} [LinearOrderedField K] (priorH : K)
    (ape : Strategy → K) (s : Strategy) :
    List.lookup s (eigsOf priorH ape) = some (priorH - ape s) := by
  have h : eigsOf priorH ape =
      strategyOrder.map fun u => (u, priorH - ape u) := by
    simpa [eigsOf, evalLoop] using
      foldl_fst priorH ape strategyOrder ([], none, 0)
  rw [h]
  cases s <;> rfl

/-- C2: when the evaluation loop over the four candidate allocations ends
with a selected strategy, that strategy's recorded EIG score is greater than
or equal to the recorded score of every candidate strategy. -/
theorem best_strategy_maximises {K : Type*} [LinearOrderedField K]
    (priorH : K) (ape : Strategy → K) (s : Strategy)
    (h : best_strategy priorH ape = some s) :
    ∀ t et es, List.lookup t (eigsOf priorH ape) = some et →
      List.lookup s (eigsOf priorH ape) = some es → et ≤ es := by
  intro t et es hlt hls
  rw [lookup_eigsOf] at hlt hls
  have het : et = priorH - ape t := (Option.some_inj.mp hlt).symm
  have hes : es = priorH - ape s := (Option.some_inj.mp hls).symm
  subst het hes
  have h' : (strategyOrder.foldl (loopStep priorH ape) ([], none, 0)).2.1 =
      some s := h
  rcases foldl_best_eq priorH ape strategyOrder ([], none, 0) s h' with
    ⟨_, heig⟩ | ⟨habs, _⟩
  · have hge := foldl_bestEig_ge priorH ape strategyOrder ([], none, 0) t
      (mem_strategyOrder t)
    rw [heig] at hge
    exact hge
  · simp at habs

/-- C4: every recorded EIG score is the precomputed prior entropy of the
winner — the entropy of a Bernoulli at the prior win probability `p` —
minus the average posterior entropy `ape` returned by the estimator run
with `eig=False`; the same single prior-entropy value enters every score,
so adding back `ape` recovers it for every strategy. -/
theorem eig_scores_from_prior_entropy (p : ℝ) (ape : Strategy → ℝ) :
    (∀ s, List.lookup s (eigsOf (bernoulliEntropy p) ape) =
      some (bernoulliEntropy p - ape s)) ∧
    (∀ s t, (bernoulliEntropy p - ape s) + ape s
      = (bernoulliEntropy p - ape t) + ape t) :=
  ⟨fun s => lookup_eigsOf (bernoulliEntropy p) ape s, fun _ _ => by ring⟩

/-- C9: if no candidate strategy's score exceeds `0`, the strict comparison
against the initial `best_eig = 0` never fires, `best_strategy` remains
`None`, and the subsequent dictionary access `poll_strategies[best_strategy]`
fails (embedded as a `none` lookup result); and when exactly two strategies
tie for the maximum score (every other strategy scoring strictly lower),
the strict comparison keeps the incumbent, so the one appearing earlier in
the ordered dictionary is selected. -/
theorem none_when_no_positive_eig_and_ties_break_early (priorH : ℚ)
    (ape : Strategy → ℚ) (swingPoll : Fin 51 → ℚ) :
    ((∀ s, priorH - ape s ≤ 0) →
      best_strategy priorH ape = none ∧
      pollLookup swingPoll (best_strategy priorH ape) = none) ∧
    (∀ s t : Strategy, strategyIdx s < strategyIdx t →
      priorH - ape s = priorH - ape t → 0 < priorH - ape s →
      (∀ u, u ≠ s → u ≠ t → priorH - ape u < priorH - ape s) →
      best_strategy priorH ape = some s) := by
  constructor
  · intro hle
    have h := foldl_none priorH ape strategyOrder [] 0 fun s _ => hle s
    have hb : best_strategy priorH ape = none := congrArg Prod.fst h
    exact ⟨hb, by rw [hb]; rfl⟩
  · intro s t hidx heq hpos hothers
    have hmax : ∀ u : Strategy, priorH - ape u ≤ priorH - ape s := by
      intro u
      by_cases hu1 : u = s
      · exact le_of_eq (by rw [hu1])
      · by_cases hu2 : u = t
        · rw [hu2]
          exact le_of_eq heq.symm
        · exact le_of_lt (hothers u hu1 hu2)
    cases s <;> cases t <;> simp only [strategyIdx] at hidx <;>
      first
        | omega
        | (unfold best_strategy evalLoop strategyOrder
           try have oF := hothers Strategy.florida (by decide) (by decide)
           try have oD := hothers Strategy.dc (by decide) (by decide)
           try have oU := hothers Strategy.uniform (by decide) (by decide)
           try have oW := hothers Strategy.swing (by decide) (by decide)
           have mF := hmax Strategy.florida
           have mD := hmax Strategy.dc
           have mU := hmax Strategy.uniform
           have mW := hmax Strategy.swing
           simp only [List.foldl_cons, List.foldl_nil, loopStep]
           split_ifs <;> (try dsimp only at *) <;>
             first
               | rfl
               | (exfalso; linarith))

/-- A trivial concrete dataset (every count `1`) used to instantiate
witnesses. -/
noncomputable def onesData : VoteData where
  dem := fun _ _ => 1
  rep := fun _ _ => 1

/-- Concrete average-posterior-entropy values for the C2 witness: with prior
entropy `1` the scores are `1/2`, `1/100`, `3/10`, `1`, so Swing wins. -/
def apeW : Strategy → ℚ
  | Strategy.florida => 1 / 2
  | Strategy.dc => 99 / 100
  | Strategy.uniform => 7 / 10
  | Strategy.swing => 0

/-- Witness for C2: on concrete scores the loop selects Swing, and its
recorded score dominates Florida's. -/
theorem best_strategy_maximises_witness :
    best_strategy (1 : ℚ) apeW = some Strategy.swing ∧
    List.lookup Strategy.florida (eigsOf (1 : ℚ) apeW) =
      some (1 - apeW Strategy.florida) ∧
    List.lookup Strategy.swing (eigsOf (1 : ℚ) apeW) =
      some (1 - apeW Strategy.swing) ∧
    (1 - apeW Strategy.florida : ℚ) ≤ 1 - apeW Strategy.swing :=
  ⟨by norm_num [best_strategy, evalLoop, strategyOrder, loopStep, apeW],
   lookup_eigsOf 1 apeW Strategy.florida,
   lookup_eigsOf 1 apeW Strategy.swing,
   best_strategy_maximises 1 apeW Strategy.swing
     (by norm_num [best_strategy, evalLoop, strategyOrder, loopStep, apeW])
     Strategy.florida (1 - apeW Strategy.florida) (1 - apeW Strategy.swing)
     (lookup_eigsOf 1 apeW Strategy.florida)
     (lookup_eigsOf 1 apeW Strategy.swing)⟩

/-- Concrete scores for the C9 witness tie: with prior entropy `2`,
Florida and Uniform both score `1`, DC and Swing score `0`. -/
def apeTie : Strategy → ℚ
  | Strategy.florida => 1
  | Strategy.dc => 2
  | Strategy.uniform => 1
  | Strategy.swing => 2

/-- Witness for C9: with all scores `0` the selection stays `None` and the
dictionary access fails; with Florida and Uniform tied at the top, the
earlier Florida is selected. -/
theorem none_and_tie_break_witness :
    (best_strategy (0 : ℚ) (fun _ => 0) = none ∧
      pollLookup (fun _ => 0) (best_strategy (0 : ℚ) (fun _ => 0)) = none) ∧
    best_strategy (2 : ℚ) apeTie = some Strategy.florida :=
  ⟨(none_when_no_positive_eig_and_ties_break_early 0 (fun _ => 0)
      (fun _ => 0)).1 (fun s => by norm_num),
   (none_when_no_positive_eig_and_ties_break_early 2 apeTie (fun _ => 0)).2
      Strategy.florida Strategy.uniform (by decide)
      (by norm_num [apeTie]) (by norm_num [apeTie])
      (by
        intro u h1 h2
        cases u
        · exact absurd rfl h1
        · norm_num [apeTie]
        · exact absurd rfl h2
        · norm_num [apeTie])⟩

/-- Witness for C8: with all electoral-college counts `0` and all latent
propensities `0`, every hypothesis is discharged concretely: the zero state
contributes nothing, the Democrat total (`0`) is exactly half the overall
total (`0`), and the output is `0`. -/
theorem election_winner_strict_boundaries_witness :
    (fun _ : Fin 51 => (0 : ℚ)) 0 *
      dem_win_state (fun _ : Fin 51 => (0 : ℚ)) 0 = 0 ∧
    election_winner (fun _ : Fin 51 => (0 : ℚ)) (fun _ : Fin 51 => (0 : ℚ)) = 0 ∧
    (election_winner (fun _ : Fin 51 => (0 : ℚ)) (fun _ : Fin 51 => (0 : ℚ)) = 0 ∨
      election_winner (fun _ : Fin 51 => (0 : ℚ)) (fun _ : Fin 51 => (0 : ℚ)) = 1) :=
  ⟨(election_winner_strict_boundaries (fun _ => 0) (fun _ => 0)).1 0 rfl,
   (election_winner_strict_boundaries (fun _ => 0) (fun _ => 0)).2.1
     (by simp [dem_win_state]),
   (election_winner_strict_boundaries (fun _ => 0) (fun _ => 0)).2.2⟩

/-- Witness for C7: on equal concrete `alpha` vectors the outputs agree, and
the model's `"w"` site carries the `Delta` at the computed winner. -/
theorem election_winner_deterministic_witness :
    ((fun _ : Fin 51 => (0 : ℝ)) = (fun _ : Fin 51 => (0 : ℝ))) ∧
    (election_winner (fun _ : Fin 51 => (1 : ℝ)) (fun _ : Fin 51 => (0 : ℝ)) =
      election_winner (fun _ : Fin 51 => (1 : ℝ)) (fun _ : Fin 51 => (0 : ℝ)) ∧
    List.lookup "w"
        (model onesData (fun _ => 1) (fun _ => 1) (fun _ => 0) (fun _ => 0)).1 =
      some (PyroDist.delta
        (election_winner (fun _ : Fin 51 => (1 : ℝ)) (fun _ : Fin 51 => (0 : ℝ)))) ∧
    (model onesData (fun _ => 1) (fun _ => 1) (fun _ => 0) (fun _ => 0)).2.2.1 =
      election_winner (fun _ : Fin 51 => (1 : ℝ)) (fun _ : Fin 51 => (0 : ℝ))) :=
  ⟨rfl, election_winner_deterministic onesData (fun _ => 1) (fun _ => 1)
    (fun _ => 0) (fun _ => 0) (fun _ => 0) rfl⟩

/-- Witness for C6: on the concrete 2016 data where every state records one
Democrat and one Republican vote, the positivity hypotheses hold, the logit
identity is obtained from the claim theorem, and `true_alpha` evaluates to
`log 1 = 0`. -/
theorem conditioned_model_2016_witness :
    (0 : ℝ) < 1 ∧
    true_alpha (fun _ => ((1 : ℝ), (1 : ℝ))) 0 =
      Real.log (((1 : ℝ) / (1 + 1)) / (1 - 1 / (1 + 1))) ∧
    true_alpha (fun _ => ((1 : ℝ), (1 : ℝ))) 0 = 0 :=
  ⟨by norm_num,
   (conditioned_model_uses_2016_alpha onesData (fun _ => 1)
      (fun _ => ((1 : ℝ), (1 : ℝ))) (fun _ => 1) (fun _ => 0)).2.2.2 0
      zero_lt_one zero_lt_one,
   by simp [true_alpha]⟩

end Elections
